import Mathlib

/-!
Verification of the medication-adherence computations of the dose-insight-hub
repository.  The application's core logic (upcoming-dose projection, adherence
aggregation, calendar resolution, dose logging, medication creation) is
shallowly embedded below, translated from the page components
(`Dashboard`, `Calendar.tsx`, `DoseLogging`, `AddMedication.tsx`).

Modelling conventions:
* Instants are naturals counting minutes of local time since an epoch;
  a calendar day is the bucket `t / 1440`.  JavaScript `Date` arithmetic on
  local time (`setHours`, `setDate(+1)`, `isSameDay`) is modelled with
  fixed-length 1440-minute days.
* `date-fns` comparators: `isAfter a b` is `b < a`, `isBefore a b` is `a < b`,
  `isSameDay a b` compares day buckets.
* JavaScript string/number coercions used by the time parser are modelled on
  `String.data` (lists of characters) so that every definition reduces in the
  kernel.
-/

/-- Minutes in one local calendar day. -/
def minutesPerDay : Nat := 1440

/-- Start of the local calendar day containing instant `t`
(models `new Date()` followed by `setHours(h, m, 0, 0)`: the due candidate is
built from the day start). -/
def dayStart (t : Nat) : Nat := t / minutesPerDay * minutesPerDay

/-- Local calendar-day bucket of an instant. -/
def dayOf (t : Nat) : Nat := t / minutesPerDay

/-- Models `date-fns` `isSameDay` on local time: equal calendar-day buckets. -/
def sameDay (a b : Nat) : Bool := dayOf a == dayOf b

/-- A medication row as reshaped by the pages (camelCase record of
`src/types/index.ts`).  Dates are instants (see module header). -/
structure Medication where
  id : String
  name : String
  dose : String
  frequency : String
  times : List String
  startDate : Nat
  endDate : Option Nat
  category : Option String
  familyMember : Option String
  userId : String
  createdAt : Nat
  deriving DecidableEq

/-- A dose-log row as reshaped by the pages (`src/types/index.ts`). -/
structure DoseLog where
  id : String
  medicationId : String
  timestamp : Nat
  isOnTime : Bool
  userId : String
  deriving DecidableEq

/-- Splits a character list at every occurrence of `c`, keeping empty pieces;
models JavaScript `String.prototype.split` with a single-character separator
(`"".split(c)` gives `[""]`, `"08:".split(':')` gives `["08", ""]`). -/
def splitChar (c : Char) : List Char → List (List Char)
  | [] => [[]]
  | x :: xs =>
    let r := splitChar c xs
    if x = c then [] :: r
    else
      match r with
      | [] => [[x]]
      | h :: t => (x :: h) :: t

/-- Value of a list of decimal digits. -/
def digitsVal (l : List Char) : Nat :=
  l.foldl (fun acc c => 10 * acc + (c.toNat - 48)) 0

/-- Hexadecimal digit test. -/
def isHexDigit (c : Char) : Bool :=
  c.isDigit || (decide ('a' ≤ c) && decide (c ≤ 'f')) ||
    (decide ('A' ≤ c) && decide (c ≤ 'F'))

/-- Value of one digit character in bases up to 16. -/
def digitVal (c : Char) : Nat :=
  if c.isDigit then c.toNat - 48
  else if decide ('a' ≤ c) && decide (c ≤ 'f') then c.toNat - 87
  else c.toNat - 55

/-- Value of a digit list in base `b`. -/
def digitsValBase (b : Nat) (l : List Char) : Nat :=
  l.foldl (fun acc c => b * acc + digitVal c) 0

/-- The exponent part of a JavaScript decimal literal (the text after the
`e`/`E`): an optional sign followed by at least one decimal digit. -/
def parseExpPart (l : List Char) : Option Int :=
  match l with
  | '+' :: rest =>
    if !rest.isEmpty && rest.all Char.isDigit then some (digitsVal rest)
    else none
  | '-' :: rest =>
    if !rest.isEmpty && rest.all Char.isDigit
    then some (-(digitsVal rest : Int)) else none
  | rest =>
    if !rest.isEmpty && rest.all Char.isDigit then some (digitsVal rest)
    else none

/-- The mantissa of a JavaScript decimal literal: `digits`, `digits.`,
`digits.digits`, or `.digits`.  Returns the concatenated digit value together
with the number of fraction digits. -/
def parseMantissa (l : List Char) : Option (Nat × Nat) :=
  let d1 := l.takeWhile Char.isDigit
  let rest := l.dropWhile Char.isDigit
  match rest with
  | [] => if d1.isEmpty then none else some (digitsVal d1, 0)
  | '.' :: rest2 =>
    let d2 := rest2.takeWhile Char.isDigit
    let rest3 := rest2.dropWhile Char.isDigit
    if !rest3.isEmpty then none
    else if d1.isEmpty && d2.isEmpty then none
    else some (digitsVal (d1 ++ d2), d2.length)
  | _ => none

/-- Splits a decimal literal at the first `e`/`E` into the mantissa text and
the optional exponent text. -/
def splitExp : List Char → (List Char × Option (List Char))
  | [] => ([], none)
  | c :: cs =>
    if c = 'e' ∨ c = 'E' then ([], some cs)
    else
      let r := splitExp cs
      (c :: r.1, r.2)

/-- Truncation toward zero (`ToIntegerOrInfinity`) of the exact decimal value
`(-1)^neg * mantissa * 10^s`. -/
def truncScaled (neg : Bool) (mantissa : Nat) (s : Int) : Int :=
  let mag : Nat :=
    if 0 ≤ s then mantissa * 10 ^ s.toNat else mantissa / 10 ^ (-s).toNat
  if neg then -(mag : Int) else (mag : Int)

/-- The `StrDecimalLiteral` path of `Number`: an optional sign, then a
mantissa with an optional exponent; the exact value is truncated toward
zero. -/
def jsDecimal (l : List Char) : Option Int :=
  let sb : Bool × List Char :=
    match l with
    | '+' :: rest => (false, rest)
    | '-' :: rest => (true, rest)
    | rest => (false, rest)
  let se := splitExp sb.2
  match parseMantissa se.1 with
  | none => none
  | some (mval, flen) =>
    match se.2 with
    | none => some (truncScaled sb.1 mval (0 - (flen : Int)))
    | some etext =>
      match parseExpPart etext with
      | none => none
      | some e => some (truncScaled sb.1 mval (e - (flen : Int)))

/-- A base-prefixed integer literal body (after `0x`, `0o` or `0b`): at least
one digit of the base, no sign. -/
def jsRadix (base : Nat) (digitOk : Char → Bool) (l : List Char) : Option Int :=
  if !l.isEmpty && l.all digitOk then some ((digitsValBase base l : Nat) : Int)
  else none

/-- Models the integer a time-of-day field contributes to `setHours`:
`ToIntegerOrInfinity(Number(field))`.  Surrounding whitespace is ignored; the
empty (or all-whitespace) string coerces to 0; decimal literals with optional
sign, fraction and exponent ("+8", "8.5", "1e1") and unsigned `0x`/`0o`/`0b`
literals coerce to their value truncated toward zero.  `none` covers every
field on which `setHours` produces an invalid date: strings matching no
numeric literal (`NaN`) and the `Infinity` forms (an infinite component also
makes `MakeTime` return `NaN`).  Floating-point limits are outside the model:
literals overflowing to `Infinity` (magnitude beyond about 1.8e308), rounding
at the 17th significant digit, and the `Date` range clip at ±8.64e15 ms are
not represented; no theorem below touches those magnitudes. -/
def jsNumber (s : List Char) : Option Int :=
  let t := ((s.dropWhile Char.isWhitespace).reverse.dropWhile Char.isWhitespace).reverse
  match t with
  | [] => some 0
  | '0' :: c :: rest =>
    if c = 'x' ∨ c = 'X' then jsRadix 16 isHexDigit rest
    else if c = 'o' ∨ c = 'O' then
      jsRadix 8 (fun d => decide ('0' ≤ d) && decide (d ≤ '7')) rest
    else if c = 'b' ∨ c = 'B' then
      jsRadix 2 (fun d => (d == '0') || (d == '1')) rest
    else jsDecimal t
  | _ => jsDecimal t

/-- Models the Dashboard's time parsing
(`const [hours, minutes] = timeStr.split(':').map(Number)` feeding
`setHours`): the first two colon-separated fields are coerced with `Number`
and truncated; a missing second field is `undefined`, which coerces to `NaN`.
A `NaN` (or infinite) value in either position makes `setHours` produce an
invalid date, modelled as `none`. -/
def parseTime (s : String) : Option (Int × Int) :=
  let parts := splitChar ':' s.data
  match parts[0]?, parts[1]? with
  | some hs, some ms =>
    match jsNumber hs, jsNumber ms with
    | some h, some m => some (h, m)
    | _, _ => none
  | _, _ => none

/-- The Dashboard's upcoming-doses eligibility filter
(`(!endDate || isAfter(endDate, now)) && !isBefore(now, startDate)`):
no end date or end date strictly after `now`, and `now` not before the start
date. -/
def upcomingEligible (now : Nat) (med : Medication) : Bool :=
  (med.endDate.all fun e => decide (now < e)) && !(decide (now < med.startDate))

/-- The Dashboard's per-time projection: a candidate instant on the current
calendar day at the parsed hour/minute with zero seconds
(`setHours(hours, minutes, 0, 0)`, out-of-range values rolling over just as in
JavaScript), advanced by exactly one calendar day when it is strictly before
`now`.  A malformed time string yields an invalid date (`none`); the
invalid-date comparison `isBefore` is false, so no advancing occurs. -/
def projectDue (now : Nat) (s : String) : Option Int :=
  match parseTime s with
  | none => none
  | some (h, m) =>
    let c : Int := (dayStart now : Int) + 60 * h + m
    some (if c < (now : Int) then c + (minutesPerDay : Int) else c)

/-- The Dashboard's upcoming list before sorting and truncation: eligible
medications, one entry per time-of-day string, keeping input order. -/
def rawUpcoming (now : Nat) (meds : List Medication) :
    List (Medication × Option Int) :=
  (meds.filter (upcomingEligible now)).flatMap fun med =>
    med.times.map fun s => (med, projectDue now s)

/-- Sort key used by the Dashboard's comparator
(`a.dueTime.getTime() - b.dueTime.getTime()`).  An invalid date has `NaN`
time, for which the JavaScript sort order is unspecified; the model keys such
entries as `0` (no claim depends on their order). -/
def dueKey (e : Medication × Option Int) : Int := e.2.getD 0

/-- Inserts `x` into a list sorted ascending by `key`, after every element
with a strictly smaller key and before every element with an equal or larger
key. -/
def insOrd {α : Type} (key : α → Int) (x : α) : List α → List α
  | [] => [x]
  | h :: t => if key h < key x then h :: insOrd key x t else x :: h :: t

/-- Stable insertion sort, ascending by `key`; extensionally equal to
`Array.prototype.sort` with a numeric comparator (stable per ES2019). -/
def sortOrd {α : Type} (key : α → Int) : List α → List α
  | [] => []
  | h :: t => insOrd key h (sortOrd key t)

/-- The Dashboard's upcoming doses: raw entries sorted ascending by due
instant (stable) and truncated with `slice(0, 3)`. -/
def upcomingDoses (now : Nat) (meds : List Medication) :
    List (Medication × Option Int) :=
  (sortOrd dueKey (rawUpcoming now meds)).take 3

/-- Count of logs whose on-time flag is set
(`formattedLogs.filter(log => log.isOnTime).length`). -/
def onTimeCount (logs : List DoseLog) : Nat :=
  (logs.filter fun l => l.isOnTime).length

/-- The Dashboard's adherence rate
(`totalDoses > 0 ? (takenOnTime / totalDoses) * 100 : 0`), as a rational. -/
def adherenceRate (logs : List DoseLog) : ℚ :=
  if 0 < logs.length then ((onTimeCount logs : ℚ) / (logs.length : ℚ)) * 100
  else 0

/-- The adherence percentage as rendered (`Math.round(adherenceRate)`;
`Math.round x = ⌊x + 1/2⌋` for the nonnegative values arising here). -/
def displayedAdherence (logs : List DoseLog) : ℤ :=
  round (adherenceRate logs)

/-- Stated from the specification's words, for comparison with
`displayedAdherence`: percentage = 100 × (count where on-time flag is true) /
(total count), rounded to nearest integer, and 0 when `logs` is empty. -/
def overallAdherenceSpec (logs : List DoseLog) : ℤ :=
  if logs.length = 0 then 0
  else round ((100 * (onTimeCount logs : ℚ)) / (logs.length : ℚ))

/-- Number of logs referencing medication `med` whose on-time flag is false
(`medLogs = logs.filter(log => log.medicationId === med.id)`;
`missedCount = medLogs.filter(log => !log.isOnTime).length`). -/
def missedCount (logs : List DoseLog) (med : Medication) : Nat :=
  ((logs.filter fun l => l.medicationId == med.id).filter
    fun l => !l.isOnTime).length

/-- Assigning to a key of a JavaScript plain object: an existing key keeps its
position and receives the new value, a fresh key is appended. -/
def upsert (k : String) (v : Nat) : List (String × Nat) → List (String × Nat)
  | [] => [(k, v)]
  | (k0, v0) :: t => if k0 = k then (k, v) :: t else (k0, v0) :: upsert k v t

/-- One iteration of the Dashboard's `forEach` building `missedByMed`: when
the medication's missed count is positive, assign it under the medication's
*name*. -/
def missedStep (logs : List DoseLog) (acc : List (String × Nat))
    (med : Medication) : List (String × Nat) :=
  if 0 < missedCount logs med then upsert med.name (missedCount logs med) acc
  else acc

/-- The Dashboard's `missedByMed` object, built over the medications in input
order: the association list in property *creation* order (an overwrite keeps
the key's position).  Enumeration reordering (`Object.entries`) is applied
separately by `jsEntriesOrder`. -/
def missedByMed (meds : List Medication) (logs : List DoseLog) :
    List (String × Nat) :=
  meds.foldl (missedStep logs) []

/-- An ECMAScript array-index property name: the canonical decimal string of
an integer below 2^32 - 1 (all digits, no leading zero except "0" itself). -/
def isArrayIndexName (s : String) : Bool :=
  match s.data with
  | [] => false
  | c :: cs =>
    (c :: cs).all Char.isDigit &&
      (if c = '0' then cs.isEmpty else true) &&
      decide (digitsVal (c :: cs) < 4294967295)

/-- JavaScript own-property enumeration order, as used by `Object.entries`:
entries whose keys are array-index names come first, in ascending numeric
order, followed by the remaining entries in insertion order.  (Distinct
array-index keys have distinct numeric values, so their order is unique.) -/
def jsEntriesOrder (l : List (String × Nat)) : List (String × Nat) :=
  sortOrd (fun e => (digitsVal e.1.data : Int))
      (l.filter fun e => isArrayIndexName e.1) ++
    l.filter fun e => !(isArrayIndexName e.1)

/-- Sort key of the Dashboard's most-missed comparator
(`(a, b) => b.count - a.count`): descending by count. -/
def negCount (e : String × Nat) : Int := -(e.2 : Int)

/-- The Dashboard's `sortedMostMissed`: `Object.entries(missedByMed)` in
JavaScript enumeration order as `(medication-name, count)` pairs, sorted
descending by count (stable) and truncated with `slice(0, 3)`. -/
def mostMissed (meds : List Medication) (logs : List DoseLog) :
    List (String × Nat) :=
  (sortOrd negCount (jsEntriesOrder (missedByMed meds logs))).take 3

/-- The Calendar page's per-medication activity predicate
(`startDate <= date && (!endDate || endDate >= date)`), comparing full
instants. -/
def scheduledOn (t : Nat) (med : Medication) : Bool :=
  decide (med.startDate ≤ t) && (med.endDate.all fun e => decide (t ≤ e))

/-- The Calendar page's `getScheduledMedications`. -/
def getScheduledMedications (meds : List Medication) (t : Nat) :
    List Medication :=
  meds.filter (scheduledOn t)

/-- The Calendar page's `getLogsForDate`: logs whose timestamp falls on the
same local calendar day as the selected date. -/
def getLogsForDate (logs : List DoseLog) (d : Nat) : List DoseLog :=
  logs.filter fun l => sameDay l.timestamp d

/-- The Calendar page's `isMedicationTaken`: some log for the selected day
references the medication id. -/
def isMedicationTaken (logs : List DoseLog) (d : Nat) (medId : String) :
    Bool :=
  (getLogsForDate logs d).any fun l => l.medicationId == medId

/-- The dose-log record built by the Calendar page's `handleLogDose` insert
(`medication_id`, `timestamp: now`, `is_on_time: true`, `user_id`); the row id
is assigned by the store and passed through here as `logId`. -/
def calendarNewLog (now : Nat) (medId logId uid : String) : DoseLog :=
  ⟨logId, medId, now, true, uid⟩

/-- The dose-log record built by the DoseLogging page's `handleLogDose` insert
(same shape as the Calendar page's). -/
def doseLoggingNewLog (now : Nat) (medId logId uid : String) : DoseLog :=
  ⟨logId, medId, now, true, uid⟩

/-- The Calendar page's `handleLogDose` acting on the held log list: with no
user it does nothing; if the medication is already logged on the selected
date it shows the already-logged notice and returns without inserting;
otherwise it inserts a new log timestamped `now` and appends it
(`setLogs([...logs, newLog])`).  The boolean reports whether an insert
happened (`false` on the rejection/no-user paths). -/
def calendarLogDose (logs : List DoseLog) (date now : Nat)
    (user : Option String) (medId logId : String) :
    List DoseLog × Bool :=
  match user with
  | none => (logs, false)
  | some uid =>
    if isMedicationTaken logs date medId then (logs, false)
    else (logs ++ [calendarNewLog now medId logId uid], true)

/-- The DoseLogging page's `handleLogDose` acting on the held recent-log list:
with no selected medication or no user it shows an error and does nothing;
otherwise it inserts unconditionally — there is no already-logged-today check
— and prepends the new log (`setRecentLogs([newLog, ...recentLogs])`). -/
def doseLoggingLogDose (logs : List DoseLog) (now : Nat)
    (user : Option String) (selectedId logId : String) :
    List DoseLog × Bool :=
  match user with
  | none => (logs, false)
  | some uid =>
    if selectedId = "" then (logs, false)
    else (doseLoggingNewLog now selectedId logId uid :: logs, true)

/-- The validated form values reaching `AddMedication.onSubmit` (the times
list is page state, passed separately). -/
structure MedFormValues where
  name : String
  dose : String
  frequency : String
  startDate : Nat
  endDate : Option Nat
  category : Option String
  familyMember : Option String
  deriving DecidableEq

/-- `AddMedication.onSubmit`: with no user, or with an empty times list, it
reports an error and inserts nothing; otherwise it inserts a medication row
carrying the form data and the times list (`some` is the inserted row; the
store-assigned id is not visible to the page and is modelled as `""`). -/
def addMedicationOnSubmit (user : Option String) (times : List String)
    (data : MedFormValues) (now : Nat) : Option Medication :=
  match user with
  | none => none
  | some uid =>
    if times = [] then none
    else
      some ⟨"", data.name, data.dose, data.frequency, times, data.startDate,
        data.endDate, data.category, data.familyMember, uid, now⟩

/-- Fixture: a medication whose validity window ends exactly at instant 100. -/
def medEndAtNow : Medication :=
  ⟨"m1", "Lisinopril", "10mg", "once_daily", ["08:00"], 0, some 100, none,
    none, "u1", 0⟩

/-- Fixture: a medication started on day 9 (instant 12960) with no end date;
instant 14940 is day 10 at 09:00 and 16320 is day 11 at 08:00. -/
def medYesterday : Medication :=
  ⟨"m2", "Aspirin", "81mg", "once_daily", ["08:00"], 12960, none, none, none,
    "u1", 0⟩

/-- Fixture: two distinct medications sharing the name "X". -/
def medX1 : Medication :=
  ⟨"a", "X", "5mg", "once_daily", ["08:00"], 0, none, none, none, "u1", 0⟩

/-- Fixture: second medication named "X" (different id). -/
def medX2 : Medication :=
  ⟨"b", "X", "5mg", "once_daily", ["08:00"], 0, none, none, none, "u1", 0⟩

/-- Fixture: two missed logs for medication id "a", one for id "b". -/
def logsX : List DoseLog :=
  [⟨"g1", "a", 0, false, "u1"⟩, ⟨"g2", "a", 1, false, "u1"⟩,
    ⟨"g3", "b", 2, false, "u1"⟩]

/-- Fixture: a medication named "A" with id "a". -/
def medA : Medication :=
  ⟨"a", "A", "5mg", "once_daily", ["08:00"], 0, none, none, none, "u1", 0⟩

/-- Fixture: a medication named "B" with id "b". -/
def medB : Medication :=
  ⟨"b", "B", "5mg", "once_daily", ["08:00"], 0, none, none, none, "u1", 0⟩

/-- Fixture: one missed log for id "a" and two for id "b". -/
def logsAB : List DoseLog :=
  [⟨"g1", "a", 0, false, "u1"⟩, ⟨"g2", "b", 1, false, "u1"⟩,
    ⟨"g3", "b", 2, false, "u1"⟩]

/-- Fixture: an on-time log for medication "m1" at instant 300 (day 0). -/
def logOnTime : DoseLog := ⟨"l1", "m1", 300, true, "u1"⟩

/-- Fixture: the log list holding just `logOnTime`. -/
def logsToday : List DoseLog := [logOnTime]

/-- Fixture: validated form values for a new medication. -/
def formW : MedFormValues :=
  ⟨"Aspirin", "81mg", "once_daily", 0, none, none, none⟩

/-- Fixture: the medication row `addMedicationOnSubmit` builds from `formW`
with times `["08:00"]`, user "u1", creation instant 0. -/
def medFromFormW : Medication :=
  ⟨"", "Aspirin", "81mg", "once_daily", ["08:00"], 0, none, none, none,
    "u1", 0⟩

/-- Stability relation for a keyed sort of index-tagged elements: either the
keys strictly increase, or they tie and the original positions increase. -/
def stRel {α : Type} (key : α → Int) (a b : Nat × α) : Prop :=
  key a.2 < key b.2 ∨ (key a.2 = key b.2 ∧ a.1 < b.1)

theorem mem_insOrd {α : Type} (key : α → Int) (x y : α) :
    ∀ l : List α, y ∈ insOrd key x l ↔ y = x ∨ y ∈ l := by
  intro l
  induction l with
  | nil => simp [insOrd]
  | cons h t ih =>
    by_cases hc : key h < key x
    · simp only [insOrd, if_pos hc, List.mem_cons, ih]
      tauto
    · simp only [insOrd, if_neg hc, List.mem_cons]

theorem length_insOrd {α : Type} (key : α → Int) (x : α) :
    ∀ l : List α, (insOrd key x l).length = l.length + 1 := by
  intro l
  induction l with
  | nil => rfl
  | cons h t ih =>
    by_cases hc : key h < key x
    · simp [insOrd, if_pos hc, ih]
    · simp [insOrd, if_neg hc]

theorem mem_sortOrd {α : Type} (key : α → Int) (y : α) :
    ∀ l : List α, y ∈ sortOrd key l ↔ y ∈ l := by
  intro l
  induction l with
  | nil => simp [sortOrd]
  | cons h t ih => simp [sortOrd, mem_insOrd, ih]

theorem length_sortOrd {α : Type} (key : α → Int) :
    ∀ l : List α, (sortOrd key l).length = l.length := by
  intro l
  induction l with
  | nil => rfl
  | cons h t ih => simp [sortOrd, length_insOrd, ih]

theorem pairwise_insOrd {α : Type} (key : α → Int) (x : α) :
    ∀ l : List α, l.Pairwise (fun a b => key a ≤ key b) →
      (insOrd key x l).Pairwise (fun a b => key a ≤ key b) := by
  intro l
  induction l with
  | nil => intro _; simp [insOrd]
  | cons h t ih =>
    intro hp
    rw [List.pairwise_cons] at hp
    obtain ⟨hh, ht⟩ := hp
    by_cases hc : key h < key x
    · rw [insOrd, if_pos hc, List.pairwise_cons]
      refine ⟨?_, ih ht⟩
      intro y hy
      rcases (mem_insOrd key x y t).mp hy with rfl | hy
      · exact le_of_lt hc
      · exact hh y hy
    · rw [insOrd, if_neg hc, List.pairwise_cons]
      refine ⟨?_, List.pairwise_cons.mpr ⟨hh, ht⟩⟩
      intro y hy
      rcases List.mem_cons.mp hy with rfl | hy
      · exact le_of_not_lt hc
      · exact le_trans (le_of_not_lt hc) (hh y hy)

theorem pairwise_sortOrd {α : Type} (key : α → Int) :
    ∀ l : List α, (sortOrd key l).Pairwise (fun a b => key a ≤ key b) := by
  intro l
  induction l with
  | nil => simp [sortOrd]
  | cons h t ih => exact pairwise_insOrd key h (sortOrd key t) ih

theorem map_snd_insOrd {α : Type} (key : α → Int) (x : Nat × α) :
    ∀ l : List (Nat × α),
      (insOrd (fun p => key p.2) x l).map Prod.snd =
        insOrd key x.2 (l.map Prod.snd) := by
  intro l
  induction l with
  | nil => rfl
  | cons h t ih =>
    by_cases hc : key h.2 < key x.2
    · simp only [insOrd, if_pos hc, List.map_cons, ih]
    · simp only [insOrd, if_neg hc, List.map_cons]

theorem map_snd_sortOrd {α : Type} (key : α → Int) :
    ∀ l : List (Nat × α),
      (sortOrd (fun p => key p.2) l).map Prod.snd =
        sortOrd key (l.map Prod.snd) := by
  intro l
  induction l with
  | nil => rfl
  | cons h t ih =>
    simp only [sortOrd, List.map_cons, map_snd_insOrd, ih]

theorem stable_insOrd {α : Type} (key : α → Int) (x : Nat × α) :
    ∀ l : List (Nat × α), l.Pairwise (stRel key) →
      (∀ y ∈ l, x.1 < y.1) →
      (insOrd (fun p => key p.2) x l).Pairwise (stRel key) := by
  intro l
  induction l with
  | nil => intro _ _; simp [insOrd]
  | cons h t ih =>
    intro hp hx
    rw [List.pairwise_cons] at hp
    obtain ⟨hh, ht⟩ := hp
    by_cases hc : key h.2 < key x.2
    · rw [insOrd, if_pos hc, List.pairwise_cons]
      refine ⟨?_, ih ht (fun y hy => hx y (List.mem_cons_of_mem h hy))⟩
      intro y hy
      rcases (mem_insOrd (fun p => key p.2) x y t).mp hy with rfl | hy
      · exact Or.inl hc
      · exact hh y hy
    · rw [insOrd, if_neg hc, List.pairwise_cons]
      refine ⟨?_, List.pairwise_cons.mpr ⟨hh, ht⟩⟩
      intro y hy
      have hxh : key x.2 ≤ key h.2 := le_of_not_lt hc
      rcases List.mem_cons.mp hy with rfl | hy
      · rcases lt_or_eq_of_le hxh with hlt | heq
        · exact Or.inl hlt
        · exact Or.inr ⟨heq, hx y (List.mem_cons_self y t)⟩
      · have hhy : key h.2 ≤ key y.2 := by
          rcases hh y hy with hlt | ⟨heq, _⟩
          · exact le_of_lt hlt
          · exact le_of_eq heq
        rcases lt_or_eq_of_le (le_trans hxh hhy) with hlt | heq
        · exact Or.inl hlt
        · exact Or.inr ⟨heq, hx y (List.mem_cons_of_mem h hy)⟩

theorem stable_sortOrd {α : Type} (key : α → Int) :
    ∀ l : List (Nat × α), l.Pairwise (fun a b => a.1 < b.1) →
      (sortOrd (fun p => key p.2) l).Pairwise (stRel key) := by
  intro l
  induction l with
  | nil => intro _; simp [sortOrd]
  | cons h t ih =>
    intro hp
    rw [List.pairwise_cons] at hp
    obtain ⟨hh, ht⟩ := hp
    exact stable_insOrd key h (sortOrd (fun p => key p.2) t) (ih ht)
      (fun y hy => hh y ((mem_sortOrd _ y t).mp hy))

theorem enum_pairwise_fst {α : Type} (l : List α) :
    l.enum.Pairwise (fun a b => a.1 < b.1) := by
  have h1 : (l.enum.map Prod.fst).Pairwise (· < ·) := by
    rw [List.enum_map_fst]
    exact List.pairwise_lt_range l.length
  exact (List.pairwise_map.mp h1)

theorem upsert_fresh (k : String) (v : Nat) :
    ∀ l : List (String × Nat), k ∉ l.map Prod.fst →
      upsert k v l = l ++ [(k, v)] := by
  intro l
  induction l with
  | nil => intro _; rfl
  | cons h t ih =>
    intro hk
    simp only [List.map_cons, List.mem_cons] at hk
    push_neg at hk
    rw [upsert, if_neg (fun he => hk.1 he.symm), ih hk.2]
    rfl

theorem missedFold (logs : List DoseLog) :
    ∀ (meds : List Medication) (acc : List (String × Nat)),
      (meds.map Medication.name).Nodup →
      (∀ med ∈ meds, med.name ∉ acc.map Prod.fst) →
      meds.foldl (missedStep logs) acc =
        acc ++ (meds.filter fun med => decide (0 < missedCount logs med)).map
          (fun med => (med.name, missedCount logs med)) := by
  intro meds
  induction meds with
  | nil => intro acc _ _; simp
  | cons m rest ih =>
    intro acc hnd hfresh
    simp only [List.map_cons, List.nodup_cons] at hnd
    obtain ⟨hm, hrest⟩ := hnd
    by_cases hc : 0 < missedCount logs m
    · have hstep : missedStep logs acc m = acc ++ [(m.name, missedCount logs m)] := by
        rw [missedStep, if_pos hc,
          upsert_fresh _ _ acc (hfresh m (List.mem_cons_self m rest))]
      have hfresh2 : ∀ med ∈ rest,
          med.name ∉ (acc ++ [(m.name, missedCount logs m)]).map Prod.fst := by
        intro med hmed
        simp only [List.map_append, List.mem_append, List.map_cons,
          List.map_nil, List.mem_singleton]
        rintro (ha | hb)
        · exact hfresh med (List.mem_cons_of_mem m hmed) ha
        · exact hm (hb ▸ List.mem_map_of_mem Medication.name hmed)
      rw [List.foldl_cons, hstep, ih _ hrest hfresh2, List.append_assoc]
      congr 1
      rw [List.filter_cons, if_pos (by simpa using hc)]
      rfl
    · have hstep : missedStep logs acc m = acc := by
        rw [missedStep, if_neg hc]
      rw [List.foldl_cons, hstep,
        ih _ hrest (fun med hmed => hfresh med (List.mem_cons_of_mem m hmed))]
      congr 1
      rw [List.filter_cons, if_neg (by simpa using hc)]

theorem missedByMed_eq (meds : List Medication) (logs : List DoseLog)
    (hnd : (meds.map Medication.name).Nodup) :
    missedByMed meds logs =
      (meds.filter fun med => decide (0 < missedCount logs med)).map
        (fun med => (med.name, missedCount logs med)) := by
  rw [missedByMed, missedFold logs meds [] hnd (by intro med _; simp)]
  rfl

theorem jsEntriesOrder_of_no_index (l : List (String × Nat))
    (h : ∀ e ∈ l, isArrayIndexName e.1 = false) : jsEntriesOrder l = l := by
  rw [jsEntriesOrder]
  have h1 : (l.filter fun e => isArrayIndexName e.1) = [] := by
    rw [List.filter_eq_nil_iff]
    intro a ha
    simp [h a ha]
  have h2 : (l.filter fun e => !(isArrayIndexName e.1)) = l := by
    rw [List.filter_eq_self]
    intro a ha
    simp [h a ha]
  rw [h1, h2]
  rfl


theorem round_nonneg_rat (q : ℚ) (h : 0 ≤ q) : 0 ≤ round q := by
  rw [round_eq]
  exact Int.floor_nonneg.mpr (by linarith)

theorem round_le_hundred (q : ℚ) (h : q ≤ 100) : round q ≤ 100 := by
  rw [round_eq]
  have h2 : (⌊(100 : ℚ) + 1 / 2⌋ : ℤ) = 100 := by
    rw [Int.floor_eq_iff]
    norm_num
  calc ⌊q + 1 / 2⌋ ≤ ⌊(100 : ℚ) + 1 / 2⌋ := Int.floor_le_floor (by linarith)
    _ = 100 := h2

/-- Claim C1, corrected: the Dashboard's upcoming-doses filter includes a
medication exactly when `now` is not before its start date and, if an end
date is present, the end date is strictly after `now` — so a medication whose
end date equals `now` exactly is excluded (the claim said it is included). -/
theorem C1_upcoming_filter_characterization (now : Nat) (med : Medication) :
    upcomingEligible now med = true ↔
      med.startDate ≤ now ∧ med.endDate.elim True (fun e => now < e) := by
  cases he : med.endDate with
  | none =>
    simp [upcomingEligible, he, Option.elim]
  | some e =>
    simp [upcomingEligible, he, Option.elim]
    omega

/-- Claim C1, counterexample: a medication whose end date equals `now` (100)
exactly is rejected by the upcoming filter, contradicting the claim that it
is still eligible. -/
theorem C1_counterexample :
    medEndAtNow.startDate ≤ 100 ∧ medEndAtNow.endDate = some 100 ∧
      upcomingEligible 100 medEndAtNow = false := by decide

/-- Claim C2, confirmed: the rendered adherence percentage equals the spec
formula (100 × on-time count / total, rounded to nearest, 0 on empty), lies
in [0, 100], is 0 for the empty collection, is 100 when every log of a
non-empty collection is on-time, and is 0 when no log is on-time. -/
theorem C2_overall_adherence (logs : List DoseLog) :
    displayedAdherence logs = overallAdherenceSpec logs ∧
    0 ≤ displayedAdherence logs ∧ displayedAdherence logs ≤ 100 ∧
    (logs = [] → displayedAdherence logs = 0) ∧
    (0 < logs.length → onTimeCount logs = logs.length →
      displayedAdherence logs = 100) ∧
    (onTimeCount logs = 0 → displayedAdherence logs = 0) := by
  have hk : onTimeCount logs ≤ logs.length := List.length_filter_le _ _
  by_cases h0 : logs.length = 0
  · have hnil : logs = [] := List.length_eq_zero.mp h0
    subst hnil
    refine ⟨?_, ?_, ?_, ?_, ?_, ?_⟩ <;>
      simp [displayedAdherence, overallAdherenceSpec, adherenceRate,
        onTimeCount]
  · have hpos : 0 < logs.length := Nat.pos_of_ne_zero h0
    have hnQ : (0 : ℚ) < (logs.length : ℚ) := by exact_mod_cast hpos
    have hrate : adherenceRate logs =
        ((onTimeCount logs : ℚ) / (logs.length : ℚ)) * 100 := by
      rw [adherenceRate, if_pos hpos]
    have hub : adherenceRate logs ≤ 100 := by
      rw [hrate]
      have h1 : (onTimeCount logs : ℚ) / (logs.length : ℚ) ≤ 1 :=
        (div_le_one hnQ).mpr (by exact_mod_cast hk)
      nlinarith
    have hlb : 0 ≤ adherenceRate logs := by
      rw [hrate]
      positivity
    refine ⟨?_, round_nonneg_rat _ hlb, round_le_hundred _ hub, ?_, ?_, ?_⟩
    · rw [displayedAdherence, overallAdherenceSpec, if_neg h0, hrate]
      congr 1
      ring
    · intro h
      rw [h] at hpos
      simp at hpos
    · intro _ hall
      rw [displayedAdherence, hrate, hall, div_self (ne_of_gt hnQ), one_mul]
      exact round_ofNat 100
    · intro hzero
      rw [displayedAdherence, hrate, hzero]
      simp

/-- Claim C2, witness: a single on-time log displays as 100 percent. -/
theorem C2_witness : displayedAdherence logsToday = 100 :=
  (C2_overall_adherence logsToday).2.2.2.2.1 (by decide) (by decide)

/-- Claim C3, amended: for medications with pairwise-distinct names the
most-missed ranking is correct — `missedByMed` lists exactly the medications
with a positive missed count, in input order, each with its own count; the
`Object.entries` enumeration preserves that order because no key is an
array-index name; every output entry has a positive count belonging to some
input medication; the output is sorted descending by count, has length at
most 3, and the sort is stable (ties keep the entry order, which here equals
the input medication order).  Without the hypotheses the program behaves
differently: the ranking is keyed by medication *name*, so a later medication
with a positive missed count overwrites an earlier same-named entry (see the
counterexample), and medications whose names are array-index strings (such as
"12") are enumerated before the others in ascending numeric order, breaking
ties against input order. -/
theorem C3_most_missed_ranking (meds : List Medication) (logs : List DoseLog)
    (hnd : (meds.map Medication.name).Nodup)
    (hidx : ∀ med ∈ meds, isArrayIndexName med.name = false) :
    jsEntriesOrder (missedByMed meds logs) = missedByMed meds logs ∧
    missedByMed meds logs =
      (meds.filter fun med => decide (0 < missedCount logs med)).map
        (fun med => (med.name, missedCount logs med)) ∧
    (∀ e ∈ mostMissed meds logs, 0 < e.2 ∧
      ∃ med ∈ meds, med.name = e.1 ∧ missedCount logs med = e.2) ∧
    (mostMissed meds logs).Pairwise (fun a b => b.2 ≤ a.2) ∧
    (mostMissed meds logs).length ≤ 3 ∧
    (sortOrd (fun p => negCount p.2)
        (jsEntriesOrder (missedByMed meds logs)).enum).map Prod.snd =
      sortOrd negCount (jsEntriesOrder (missedByMed meds logs)) ∧
    (sortOrd (fun p => negCount p.2)
        (jsEntriesOrder (missedByMed meds logs)).enum).Pairwise
      (stRel negCount) := by
  have heq := missedByMed_eq meds logs hnd
  have hkeys : ∀ e ∈ missedByMed meds logs, isArrayIndexName e.1 = false := by
    intro e he
    rw [heq] at he
    obtain ⟨med, hmedf, hme⟩ := List.mem_map.mp he
    obtain ⟨hmem, _⟩ := List.mem_filter.mp hmedf
    rw [← hme]
    exact hidx med hmem
  have horder := jsEntriesOrder_of_no_index _ hkeys
  refine ⟨horder, heq, ?_, ?_, ?_, ?_,
    stable_sortOrd negCount _ (enum_pairwise_fst _)⟩
  · intro e he
    have h1 : e ∈ sortOrd negCount (jsEntriesOrder (missedByMed meds logs)) :=
      List.mem_of_mem_take he
    have h2 : e ∈ missedByMed meds logs := by
      rw [← horder]
      exact (mem_sortOrd _ _ _).mp h1
    rw [heq] at h2
    obtain ⟨med, hmedf, hme⟩ := List.mem_map.mp h2
    obtain ⟨hmem, hcond⟩ := List.mem_filter.mp hmedf
    refine ⟨?_, med, hmem, ?_, ?_⟩
    · rw [← hme]
      simpa using hcond
    · rw [← hme]
    · rw [← hme]
  · have hp : (sortOrd negCount (jsEntriesOrder (missedByMed meds logs))).Pairwise
        (fun a b => negCount a ≤ negCount b) := pairwise_sortOrd _ _
    have hp2 : (sortOrd negCount (jsEntriesOrder (missedByMed meds logs))).Pairwise
        (fun a b => b.2 ≤ a.2) := by
      refine hp.imp ?_
      intro a b hab
      rw [negCount, negCount] at hab
      omega
    exact hp2.sublist (List.take_sublist 3 _)
  · show ((sortOrd negCount
        (jsEntriesOrder (missedByMed meds logs))).take 3).length ≤ 3
    exact List.length_take_le 3 _
  · have h := map_snd_sortOrd negCount
      (jsEntriesOrder (missedByMed meds logs)).enum
    rw [List.enum_map_snd] at h
    exact h

/-- Claim C3, counterexample: two distinct medications sharing the name "X"
(ids "a" with 2 missed logs, "b" with 1).  The ranking keyed by name keeps
only the later medication's entry, so medication "a" with missedCount 2 has
no entry — the ranking does not assign each medication its missed count. -/
theorem C3_counterexample :
    missedCount logsX medX1 = 2 ∧
      mostMissed [medX1, medX2] logsX = [("X", 1)] := by decide

/-- Claim C3, witness: the amended ranking theorem applied to two medications
with distinct, non-array-index names. -/
theorem C3_witness :
    (([medA, medB].map Medication.name).Nodup ∧
        ∀ med ∈ [medA, medB], isArrayIndexName med.name = false) ∧
      (mostMissed [medA, medB] logsAB).length ≤ 3 :=
  ⟨⟨by decide, by decide⟩,
    (C3_most_missed_ranking [medA, medB] logsAB (by decide)
      (by decide)).2.2.2.2.1⟩

/-- Claim C4, confirmed: for an eligible medication and a well-formed
"HH:MM" time string, the projected due instant is the current calendar day at
that hour and minute (zero seconds) when that is not before `now`, and
otherwise exactly one calendar day later; every projected instant lies in
[`now`, start of day after tomorrow); the entry appears in the raw upcoming
list; the output is sorted ascending by due instant, stably (tied entries
keep their original positions), and truncated to 3 entries. -/
theorem C4_schedule_projection (now : Nat) (meds : List Medication)
    (med : Medication) (s : String) (h m : Nat)
    (hmem : med ∈ meds) (helig : upcomingEligible now med = true)
    (hs : s ∈ med.times)
    (hparse : parseTime s = some ((h : Int), (m : Int)))
    (hh : h < 24) (hm : m < 60) :
    projectDue now s =
      some (if (dayStart now : Int) + 60 * (h : Int) + (m : Int) < (now : Int)
        then (dayStart now : Int) + 60 * (h : Int) + (m : Int) +
          (minutesPerDay : Int)
        else (dayStart now : Int) + 60 * (h : Int) + (m : Int)) ∧
    (∀ d : Int, projectDue now s = some d →
      (now : Int) ≤ d ∧ d < (dayStart now : Int) + 2 * (minutesPerDay : Int)) ∧
    (med, projectDue now s) ∈ rawUpcoming now meds ∧
    (upcomingDoses now meds).length ≤ 3 ∧
    (sortOrd dueKey (rawUpcoming now meds)).Pairwise
      (fun a b => dueKey a ≤ dueKey b) ∧
    (sortOrd (fun p => dueKey p.2) (rawUpcoming now meds).enum).map Prod.snd
      = sortOrd dueKey (rawUpcoming now meds) ∧
    (sortOrd (fun p => dueKey p.2) (rawUpcoming now meds).enum).Pairwise
      (stRel dueKey) := by
  have hproj : projectDue now s =
      some (if (dayStart now : Int) + 60 * (h : Int) + (m : Int) < (now : Int)
        then (dayStart now : Int) + 60 * (h : Int) + (m : Int) +
          (minutesPerDay : Int)
        else (dayStart now : Int) + 60 * (h : Int) + (m : Int)) := by
    unfold projectDue
    rw [hparse]
  refine ⟨hproj, ?_, ?_, ?_, pairwise_sortOrd _ _, ?_,
    stable_sortOrd dueKey _ (enum_pairwise_fst _)⟩
  · intro d hd
    rw [hproj, Option.some.injEq] at hd
    subst hd
    simp only [dayStart, minutesPerDay]
    split_ifs with hc
    · omega
    · omega
  · rw [rawUpcoming]
    apply List.mem_flatMap.mpr
    exact ⟨med, List.mem_filter.mpr ⟨hmem, helig⟩, List.mem_map_of_mem _ hs⟩
  · show ((sortOrd dueKey (rawUpcoming now meds)).take 3).length ≤ 3
    exact List.length_take_le 3 _
  · have h := map_snd_sortOrd dueKey (rawUpcoming now meds).enum
    rw [List.enum_map_snd] at h
    exact h

/-- Claim C4, witness: the spec's scenario — times ["08:00"], start date
yesterday (day 9), no end date, `now` = day 10 at 09:00 (instant 14940) —
projects to tomorrow 08:00 (instant 16320) and appears in the raw list. -/
theorem C4_witness :
    (medYesterday, projectDue 14940 "08:00") ∈
        rawUpcoming 14940 [medYesterday] ∧
      projectDue 14940 "08:00" = some 16320 :=
  ⟨(C4_schedule_projection 14940 [medYesterday] medYesterday "08:00" 8 0
      (by decide) (by decide) (by decide) (by decide) (by decide)
      (by decide)).2.2.1,
    by decide⟩

/-- Claim C5, corrected: the Calendar's activity predicate and the
projector's eligibility filter agree at every instant `t` that is not
exactly the medication's end date; at `t` = end date they differ
(`scheduledOn` is inclusive, the projector filter is strict — see the
counterexample), so the claimed unconditional equivalence fails. -/
theorem C5_calendar_vs_projector (t : Nat) (med : Medication)
    (hne : med.endDate ≠ some t) :
    scheduledOn t med = true ↔ upcomingEligible t med = true := by
  cases he : med.endDate with
  | none =>
    simp [scheduledOn, upcomingEligible, he, Option.elim]
  | some e =>
    rw [he] at hne
    have hne2 : e ≠ t := fun h => hne (by rw [h])
    simp [scheduledOn, upcomingEligible, he, Option.elim]
    omega

/-- Claim C5, counterexample: at `t` = 100, the exact end date of
`medEndAtNow`, the Calendar includes the medication while the projector's
filter excludes it — the two predicates are not equivalent. -/
theorem C5_counterexample :
    scheduledOn 100 medEndAtNow = true ∧
      upcomingEligible 100 medEndAtNow = false := by decide

/-- Claim C5, witness: away from the end date (t = 50) the two predicates
agree. -/
theorem C5_witness :
    scheduledOn 50 medEndAtNow = true ↔ upcomingEligible 50 medEndAtNow = true :=
  C5_calendar_vs_projector 50 medEndAtNow (by decide)

/-- Claim C6, confirmed: `isMedicationTaken` holds exactly when some log
references the medication id with a timestamp on the same local calendar day
as the selected day, and it holds immediately after appending such a log,
regardless of its time within the day. -/
theorem C6_is_logged (logs : List DoseLog) (d : Nat) (medId : String) :
    (isMedicationTaken logs d medId = true ↔
      ∃ l ∈ logs, l.medicationId = medId ∧ sameDay l.timestamp d = true) ∧
    (∀ l : DoseLog, l.medicationId = medId → sameDay l.timestamp d = true →
      isMedicationTaken (logs ++ [l]) d medId = true) := by
  have hiff : ∀ L : List DoseLog, isMedicationTaken L d medId = true ↔
      ∃ l ∈ L, l.medicationId = medId ∧ sameDay l.timestamp d = true := by
    intro L
    rw [isMedicationTaken, getLogsForDate, List.any_eq_true]
    constructor
    · rintro ⟨l, hl, hid⟩
      obtain ⟨hmem, hday⟩ := List.mem_filter.mp hl
      exact ⟨l, hmem, by simpa using hid, hday⟩
    · rintro ⟨l, hmem, hid, hday⟩
      exact ⟨l, List.mem_filter.mpr ⟨hmem, hday⟩, by simpa using hid⟩
  refine ⟨hiff logs, ?_⟩
  intro l hid hday
  exact (hiff (logs ++ [l])).mpr ⟨l, by simp, hid, hday⟩

/-- Claim C6, witness: right after recording a log for "m1" at instant 300,
the medication reads as taken on day instant 400 (same calendar day). -/
theorem C6_witness :
    isMedicationTaken ([] ++ [logOnTime]) 400 "m1" = true :=
  (C6_is_logged [] 400 "m1").2 logOnTime (by decide) (by decide)

/-- Claim C7, corrected: the already-logged-today rejection holds only at the
Calendar page — there `handleLogDose` returns the log list unchanged with the
notice and inserts nothing.  The Dose Logging page's `handleLogDose` performs
no same-day check: given a selected medication and a user it always prepends
a freshly inserted log (see the counterexample for the duplicate insert). -/
theorem C7_duplicate_same_day (logs : List DoseLog) (date now : Nat)
    (user medId logId : String) :
    (isMedicationTaken logs date medId = true →
      calendarLogDose logs date now (some user) medId logId = (logs, false)) ∧
    (medId ≠ "" →
      (doseLoggingLogDose logs now (some user) medId logId).1 =
        doseLoggingNewLog now medId logId user :: logs) := by
  constructor
  · intro htaken
    simp [calendarLogDose, htaken]
  · intro hne
    simp [doseLoggingLogDose, hne]

/-- Claim C7, counterexample: medication "m1" is already logged on the
current day, yet the Dose Logging page's entry point still inserts a second
log — the log collection is changed by the attempt, refuting the claim that
every entry point rejects it as a no-op. -/
theorem C7_counterexample :
    isMedicationTaken logsToday 400 "m1" = true ∧
      (doseLoggingLogDose logsToday 400 (some "u1") "m1" "l2").1 ≠
        logsToday := by decide

/-- Claim C7, witness: the Calendar page rejects the duplicate as a no-op
while the Dose Logging page inserts unconditionally. -/
theorem C7_witness :
    calendarLogDose logsToday 400 400 (some "u1") "m1" "l2" =
        (logsToday, false) ∧
      (doseLoggingLogDose logsToday 400 (some "u1") "m1" "l2").1 =
        doseLoggingNewLog 400 "m1" "l2" "u1" :: logsToday :=
  ⟨(C7_duplicate_same_day logsToday 400 400 "u1" "m1" "l2").1 (by decide),
    (C7_duplicate_same_day logsToday 400 400 "u1" "m1" "l2").2 (by decide)⟩

/-- Claim C9, confirmed: both dose-creation call sites (the Calendar page and
the Dose Logging page — the only two inserts into dose logs in the source)
construct the record with the on-time flag equal to `true`, for every
timestamp, medication, and user; consequently any log present in a handler's
output list was either already held or carries `isOnTime = true`. -/
theorem C9_on_time_always_true (now : Nat) (medId logId uid : String) :
    (calendarNewLog now medId logId uid).isOnTime = true ∧
    (doseLoggingNewLog now medId logId uid).isOnTime = true ∧
    (∀ (logs : List DoseLog) (date : Nat) (user : Option String)
      (l : DoseLog), l ∈ (calendarLogDose logs date now user medId logId).1 →
        l ∈ logs ∨ l.isOnTime = true) ∧
    (∀ (logs : List DoseLog) (user : Option String) (l : DoseLog),
      l ∈ (doseLoggingLogDose logs now user medId logId).1 →
        l ∈ logs ∨ l.isOnTime = true) := by
  refine ⟨rfl, rfl, ?_, ?_⟩
  · intro logs date user l hl
    cases user with
    | none => exact Or.inl hl
    | some uid0 =>
      simp only [calendarLogDose] at hl
      split at hl
      · exact Or.inl hl
      · rcases List.mem_append.mp hl with hmem | hnew
        · exact Or.inl hmem
        · rw [List.mem_singleton.mp hnew]
          exact Or.inr rfl
  · intro logs user l hl
    cases user with
    | none => exact Or.inl hl
    | some uid0 =>
      simp only [doseLoggingLogDose] at hl
      split at hl
      · exact Or.inl hl
      · rcases List.mem_cons.mp hl with hnew | hmem
        · rw [hnew]
          exact Or.inr rfl
        · exact Or.inl hmem

/-- Claim C9, witness: the log the Calendar handler inserts on a fresh day is
on-time by construction. -/
theorem C9_witness :
    calendarNewLog 400 "m1" "l2" "u1" ∈ logsToday ∨
      (calendarNewLog 400 "m1" "l2" "u1").isOnTime = true :=
  (C9_on_time_always_true 400 "m1" "l2" "u1").2.2.1 logsToday 4000 (some "u1")
    (calendarNewLog 400 "m1" "l2" "u1") (by decide)

/-- Claim C10, confirmed: with a logged-in user, `AddMedication.onSubmit`
inserts a medication row exactly when the times list is non-empty, and every
inserted row carries that non-empty times list. -/
theorem C10_add_medication (uid : String) (times : List String)
    (data : MedFormValues) (now : Nat) :
    ((addMedicationOnSubmit (some uid) times data now).isSome ↔ times ≠ []) ∧
    (∀ med, addMedicationOnSubmit (some uid) times data now = some med →
      med.times = times ∧ med.times ≠ []) := by
  by_cases h : times = []
  · subst h
    simp [addMedicationOnSubmit]
  · constructor
    · simp [addMedicationOnSubmit, h]
    · intro med hmed
      simp only [addMedicationOnSubmit, if_neg h] at hmed
      rw [Option.some.injEq] at hmed
      subst hmed
      exact ⟨rfl, h⟩

/-- Claim C10, witness: submitting `formW` with times ["08:00"] as user "u1"
inserts a row whose times list is exactly ["08:00"], hence non-empty. -/
theorem C10_witness :
    medFromFormW.times = ["08:00"] ∧ medFromFormW.times ≠ [] :=
  (C10_add_medication "u1" ["08:00"] formW 0).2 medFromFormW (by decide)
